import Mathlib

/-
Verification development for the cargo stowage engine: a shallow embedding of
the container model (src/Model/container.js), the placement service
(findOptimalPlacement, findPositionInContainer, rearrangeForUnplacedItems),
the retrieval-step computation (calculateRetrievalSteps) and the placeItem
database operation (src/services/retrieval-service.js).

Coordinates, dimensions and priorities are embedded as integers; item fields
that no modelled operation reads (mass, expiry date, usage counters) are
omitted. The JavaScript source mutates shared container objects held in a
Map keyed by containerId; the embedding passes the map around explicitly as
an insertion-ordered list of containers with unique ids, writing a container
back with mapSet after each mutation, which is observationally the same as
mutating the shared object. ECMAScript Array.prototype.sort is a stable sort,
modelled by insertionSortB below. Database lookups of an item id that only
serve to read a priority or a name are modelled by explicit lookup functions
passed as arguments.
-/

structure Coord where
  width : Int
  depth : Int
  height : Int
deriving DecidableEq, Repr

/-- Position is an axis-aligned box given by its start and end corners,
as in the JavaScript objects with startCoordinates and endCoordinates. -/
structure Position where
  startCoordinates : Coord
  endCoordinates : Coord
deriving DecidableEq, Repr

/-- Item carries the fields the modelled operations read. containerId and
position are the mutable back-references used by placeItem. -/
structure Item where
  itemId : String
  name : String
  width : Int
  depth : Int
  height : Int
  priority : Int
  preferredZone : String
  containerId : Option String := none
  position : Option Position := none
deriving DecidableEq, Repr

/-- PlacedRecord is a placed-item record inside a container: the JavaScript
code stores the spread of the item together with its position. -/
structure PlacedRecord where
  item : Item
  position : Position
deriving DecidableEq, Repr

structure Container where
  containerId : String
  zone : String
  width : Int
  depth : Int
  height : Int
  items : List PlacedRecord
deriving DecidableEq, Repr

def Container.getTotalVolume (c : Container) : Int :=
  c.width * c.depth * c.height

def Container.getOccupiedVolume (c : Container) : Int :=
  c.items.foldl (fun total r => total + r.item.width * r.item.depth * r.item.height) 0

def Container.getAvailableVolume (c : Container) : Int :=
  c.getTotalVolume - c.getOccupiedVolume

/-- itemsOverlap from container.js: two boxes overlap unless they are
disjoint along at least one axis (separating-axis test). -/
def itemsOverlap (pos1 pos2 : Position) : Bool :=
  !(pos1.endCoordinates.width ≤ pos2.startCoordinates.width ||
    pos1.startCoordinates.width ≥ pos2.endCoordinates.width ||
    pos1.endCoordinates.depth ≤ pos2.startCoordinates.depth ||
    pos1.startCoordinates.depth ≥ pos2.endCoordinates.depth ||
    pos1.endCoordinates.height ≤ pos2.startCoordinates.height ||
    pos1.startCoordinates.height ≥ pos2.endCoordinates.height)

/-- canFitItem from container.js: inside the container bounds and not
overlapping any currently placed record. The item argument is unread by the
source as well; only the position is examined. -/
def Container.canFitItem (c : Container) (item : Item) (position : Position) : Bool :=
  if position.startCoordinates.width < 0 ||
     position.startCoordinates.depth < 0 ||
     position.startCoordinates.height < 0 ||
     position.endCoordinates.width > c.width ||
     position.endCoordinates.depth > c.depth ||
     position.endCoordinates.height > c.height then
    false
  else
    c.items.all (fun r => !(itemsOverlap r.position position))

/-- addItem from container.js: pushes a record iff canFitItem holds; the
returned Bool is the JavaScript return value. -/
def Container.addItem (c : Container) (item : Item) (position : Position) : Container × Bool :=
  if c.canFitItem item position then
    ({ c with items := c.items ++ [⟨item, position⟩] }, true)
  else
    (c, false)

/-- removeItem from container.js: splices out the first record with the
given id and returns it, or returns none. -/
def Container.removeItem (c : Container) (itemId : String) : Container × Option PlacedRecord :=
  match c.items.find? (fun r => r.item.itemId == itemId) with
  | none => (c, none)
  | some r => ({ c with items := c.items.eraseP (fun s => s.item.itemId == itemId) }, some r)

def Container.findItem (c : Container) (itemId : String) : Option PlacedRecord :=
  c.items.find? (fun r => r.item.itemId == itemId)

/-- Predicate of the filter inside getItemsToMove: a record blocks the
target when its id differs, its depth start is strictly lower, and it is
not separated from the target along the width or the height axis. -/
def blocksTarget (targetId : String) (tPos : Position) (r : PlacedRecord) : Bool :=
  if r.item.itemId == targetId then
    false
  else
    decide (r.position.startCoordinates.depth < tPos.startCoordinates.depth) &&
    !(r.position.endCoordinates.width ≤ tPos.startCoordinates.width ||
      r.position.startCoordinates.width ≥ tPos.endCoordinates.width ||
      r.position.endCoordinates.height ≤ tPos.startCoordinates.height ||
      r.position.startCoordinates.height ≥ tPos.endCoordinates.height)

/-- getItemsToMove from container.js: the records blocking the path to the
target, in the internal order of the items array. -/
def Container.getItemsToMove (c : Container) (itemId : String) : List PlacedRecord :=
  match c.findItem itemId with
  | none => []
  | some t => c.items.filter (blocksTarget itemId t.position)

/-- orderedInsertB and insertionSortB model the stable ECMAScript
Array.prototype.sort for a comparator that is a total preorder: an element
is inserted before the first element it compares at-most-equal to, so
tied elements keep their original relative order. -/
def orderedInsertB {α : Type} (le : α → α → Bool) (a : α) : List α → List α
  | [] => [a]
  | b :: l => if le a b then a :: b :: l else b :: orderedInsertB le a l

def insertionSortB {α : Type} (le : α → α → Bool) : List α → List α
  | [] => []
  | a :: l => orderedInsertB le a (insertionSortB le l)

/-- scanRange models one while loop of findPositionInContainer: the loop
variable starts at 0 and increments by 1 while variable + itemDim is at
most containerDim, so it visits exactly the integers 0 .. containerDim -
itemDim. -/
def scanRange (containerDim itemDim : Int) : List Int :=
  (List.range (containerDim - itemDim + 1).toNat).map (Nat.cast : Nat → Int)

/-- originPosition builds the candidate box the scan tests at origin
(x, y, z) = (width, depth, height) start coordinates. -/
def originPosition (item : Item) (x y z : Int) : Position :=
  ⟨⟨x, y, z⟩, ⟨x + item.width, y + item.depth, z + item.height⟩⟩

/-- scanOrigins lists the candidate origins of the three nested while loops
in the order they are visited: height outermost, depth middle, width
innermost. A tuple is (z, y, x) so that visit order is lexicographic. -/
def scanOrigins (item : Item) (c : Container) : List (Int × Int × Int) :=
  (scanRange c.height item.height).flatMap (fun z =>
    (scanRange c.depth item.depth).flatMap (fun y =>
      (scanRange c.width item.width).map (fun x => (z, y, x))))

/-- findPositionInContainer from the placement service: reject when an item
dimension exceeds the container dimension, otherwise return the box at the
first scanned origin accepted by canFitItem. -/
def findPositionInContainer (item : Item) (c : Container) : Option Position :=
  if item.width > c.width || item.depth > c.depth || item.height > c.height then
    none
  else
    match (scanOrigins item c).find?
        (fun t => c.canFitItem item (originPosition item t.2.2 t.2.1 t.1)) with
    | some t => some (originPosition item t.2.2 t.2.1 t.1)
    | none => none

/-- RetrievalStep as emitted by calculateRetrievalSteps; itemName of the
target is read from the database, modelled by the getName argument. -/
structure RetrievalStep where
  step : Nat
  action : String
  itemId : String
  itemName : String
deriving DecidableEq, Repr

/-- pairsFrom models the first loop of calculateRetrievalSteps: one remove
step then one setAside step per blocking record, numbering on from n. -/
def pairsFrom (n : Nat) : List PlacedRecord → List RetrievalStep
  | [] => []
  | r :: rest =>
    ⟨n, "remove", r.item.itemId, r.item.name⟩ ::
    ⟨n + 1, "setAside", r.item.itemId, r.item.name⟩ :: pairsFrom (n + 2) rest

/-- placeBacksFrom models the final loop of calculateRetrievalSteps, which
walks the blocking records from the last index down to 0; it receives the
reversed list. -/
def placeBacksFrom (n : Nat) : List PlacedRecord → List RetrievalStep
  | [] => []
  | r :: rest => ⟨n, "placeBack", r.item.itemId, r.item.name⟩ :: placeBacksFrom (n + 1) rest

/-- calculateRetrievalSteps as in retrieval-service.js (the copy in the
waste service is textually identical): a single retrieve step when nothing
blocks, otherwise remove/setAside pairs in blocking order, the retrieve,
then placeBack steps in reverse order. The source only reads the container,
so the embedding is a pure function of it. -/
def calculateRetrievalSteps (getName : String → String) (itemId : String)
    (c : Container) : List RetrievalStep :=
  let itemsToMove := c.getItemsToMove itemId
  if itemsToMove.isEmpty then
    [⟨1, "retrieve", itemId, getName itemId⟩]
  else
    pairsFrom 1 itemsToMove ++
    [⟨2 * itemsToMove.length + 1, "retrieve", itemId, getName itemId⟩] ++
    placeBacksFrom (2 * itemsToMove.length + 2) itemsToMove.reverse

structure Placement where
  itemId : String
  containerId : String
  position : Position
deriving DecidableEq, Repr

/-- RearrangementStep mirrors the objects pushed onto the rearrangements
array by rearrangeForUnplacedItems. -/
structure RearrangementStep where
  step : Nat
  action : String
  itemId : String
  fromContainer : Option String
  fromPosition : Option Position
  toContainer : Option String
  toPosition : Option Position
deriving DecidableEq, Repr

/-- mapSet models JavaScript Map.set keyed by containerId: replace in place
when the key exists, append otherwise. -/
def mapSet (m : List Container) (c : Container) : List Container :=
  if m.any (fun d => d.containerId == c.containerId) then
    m.map (fun d => if d.containerId == c.containerId then c else d)
  else
    m ++ [c]

/-- getC models reading the current state of a container object through its
id; the source holds a live reference into the shared Map instead. -/
def getC (m : List Container) (cid : String) : Option Container :=
  m.find? (fun c => c.containerId == cid)

/-- RearrangeState carries the shared mutable state of one
rearrangeForUnplacedItems call: the container map, the output arrays and
the running step counter. -/
structure RearrangeState where
  containerMap : List Container
  placements : List Placement
  rearrangements : List RearrangementStep
  step : Nat
deriving DecidableEq, Repr

/-- tryRehome models the loop over sortedContainers that looks for a new
home for the evicted record, skipping the container it was evicted from;
on success it records a place step and commits, and stops. -/
def tryRehome (rec : PlacedRecord) (skipId : String) :
    List String → RearrangeState → RearrangeState × Bool
  | [], st => (st, false)
  | cid :: rest, st =>
    if cid == skipId then
      tryRehome rec skipId rest st
    else
      match getC st.containerMap cid with
      | none => tryRehome rec skipId rest st
      | some oc =>
        match findPositionInContainer rec.item oc with
        | none => tryRehome rec skipId rest st
        | some otherPos =>
          ({ st with
              rearrangements := st.rearrangements ++
                [⟨st.step, "place", rec.item.itemId, none, none, some cid, some otherPos⟩],
              step := st.step + 1,
              containerMap := mapSet st.containerMap (oc.addItem rec.item otherPos).1 },
            true)

/-- processOccupants models the loop over the low-priority occupants of one
container: tentatively remove the occupant; if the unplaced item then fits,
record the remove and place steps, commit, try to re-home the occupant and
otherwise record a place step back to its original position (the source
ignores the Bool addItem returns there), then stop; if the item still does
not fit, silently put the occupant back and continue. The impossible
branches where the container id is missing from the map return the state
unchanged; in the source the reference is always live. -/
def processOccupants (item : Item) (cid : String) (sortedIds : List String) :
    List PlacedRecord → RearrangeState → RearrangeState × Bool
  | [], st => (st, false)
  | occ :: rest, st =>
    match getC st.containerMap cid with
    | none => (st, false)
    | some c =>
      let c1 := (c.removeItem occ.item.itemId).1
      match findPositionInContainer item c1 with
      | none =>
        processOccupants item cid sortedIds rest
          { st with containerMap := mapSet st.containerMap (c1.addItem occ.item occ.position).1 }
      | some newPos =>
        let st1 : RearrangeState :=
          { st with
              rearrangements := st.rearrangements ++
                [⟨st.step, "remove", occ.item.itemId, some cid, some occ.position, none, none⟩,
                 ⟨st.step + 1, "place", item.itemId, none, none, some cid, some newPos⟩],
              step := st.step + 2,
              placements := st.placements ++ [⟨item.itemId, cid, newPos⟩],
              containerMap := mapSet st.containerMap (c1.addItem item newPos).1 }
        match tryRehome occ cid sortedIds st1 with
        | (st2, true) => (st2, true)
        | (st2, false) =>
          match getC st2.containerMap cid with
          | none => (st2, true)
          | some c2 =>
            ({ st2 with
                rearrangements := st2.rearrangements ++
                  [⟨st2.step, "place", occ.item.itemId, none, none, some cid, some occ.position⟩],
                step := st2.step + 1,
                containerMap := mapSet st2.containerMap (c2.addItem occ.item occ.position).1 },
              true)

/-- tryContainers models the loop over sortedContainers for one unplaced
item: a direct fit places the item and leaves the loop; otherwise the
low-priority occupants (db priority strictly below the item, sorted
ascending by db priority) are processed, and the loop then moves on to the
next container whether or not the item was placed by an eviction. -/
def tryContainers (priorityOf : String → Option Int) (item : Item) (sortedIds : List String) :
    List String → RearrangeState → RearrangeState
  | [], st => st
  | cid :: rest, st =>
    match getC st.containerMap cid with
    | none => tryContainers priorityOf item sortedIds rest st
    | some c =>
      match findPositionInContainer item c with
      | some pos =>
        { st with
            placements := st.placements ++ [⟨item.itemId, cid, pos⟩],
            containerMap := mapSet st.containerMap (c.addItem item pos).1 }
      | none =>
        let lowPriority :=
          insertionSortB
            (fun a b => ((priorityOf a.item.itemId).getD 0) ≤ ((priorityOf b.item.itemId).getD 0))
            (c.items.filter (fun r =>
              match priorityOf r.item.itemId with
              | some p => decide (p < item.priority)
              | none => false))
        tryContainers priorityOf item sortedIds rest
          (processOccupants item cid sortedIds lowPriority st).1

/-- rearrangeForUnplacedItems from the placement service: for each unplaced
item in turn, rank the containers by descending current available volume
(stable) and run tryContainers over that ranking. The step counter starts
at 1. -/
def rearrangeForUnplacedItems (priorityOf : String → Option Int)
    (unplacedItems : List Item) (containerMap : List Container) : RearrangeState :=
  unplacedItems.foldl
    (fun st item =>
      let sortedIds :=
        (insertionSortB (fun a b => b.getAvailableVolume ≤ a.getAvailableVolume)
          st.containerMap).map (fun c => c.containerId)
      tryContainers priorityOf item sortedIds sortedIds st)
    ⟨containerMap, [], [], 1⟩

/-- tryPlaceList models one first-pass loop over a filtered container list:
place at the first container whose findPositionInContainer succeeds, commit
with addItem, and stop. -/
def tryPlaceList (item : Item) : List String → List Container → Option (List Container × Placement)
  | [], _ => none
  | cid :: rest, m =>
    match getC m cid with
    | none => tryPlaceList item rest m
    | some c =>
      match findPositionInContainer item c with
      | some pos => some (mapSet m (c.addItem item pos).1, ⟨item.itemId, cid, pos⟩)
      | none => tryPlaceList item rest m

/-- FirstPassState is the local state of the first pass of
findOptimalPlacement: the working container map, the placements recorded so
far, and the items that fit nowhere. -/
structure FirstPassState where
  containerMap : List Container
  placements : List Placement
  unplacedItems : List Item
deriving DecidableEq, Repr

/-- placeOneItem models one iteration of the first pass: try the containers
of the preferred zone first, then every container of a different zone, and
collect the item as unplaced if neither loop placed it. -/
def placeOneItem (st : FirstPassState) (item : Item) : FirstPassState :=
  let preferredIds :=
    (st.containerMap.filter (fun c => c.zone == item.preferredZone)).map (fun c => c.containerId)
  match tryPlaceList item preferredIds st.containerMap with
  | some (m, p) => { st with containerMap := m, placements := st.placements ++ [p] }
  | none =>
    let otherIds :=
      (st.containerMap.filter (fun c => !(c.zone == item.preferredZone))).map
        (fun c => c.containerId)
    match tryPlaceList item otherIds st.containerMap with
    | some (m, p) => { st with containerMap := m, placements := st.placements ++ [p] }
    | none => { st with unplacedItems := st.unplacedItems ++ [item] }

/-- firstPass folds placeOneItem over the priority-sorted items. -/
def firstPass (sortedItems : List Item) (m0 : List Container) : FirstPassState :=
  sortedItems.foldl placeOneItem ⟨m0, [], []⟩

/-- PlacementResult is what findOptimalPlacement returns; containerMap is
the final internal working map, exposed here so invariants about it can be
stated (the source discards it when the call returns). -/
structure PlacementResult where
  success : Bool
  placements : List Placement
  rearrangements : List RearrangementStep
  containerMap : List Container
deriving DecidableEq, Repr

/-- findOptimalPlacement from the placement service: sort the items by
descending priority (stable), build the working map from the supplied
containers with their items arrays reset to empty (the source constructs
new Container objects with items: []), run the first pass, then hand the
unplaced items to rearrangeForUnplacedItems; success is the literal source
formula: no unplaced items after the first pass, or a nonempty
rearrangement list. -/
def findOptimalPlacement (priorityOf : String → Option Int) (items : List Item)
    (containers : List Container) : PlacementResult :=
  let sortedItems := insertionSortB (fun a b => b.priority ≤ a.priority) items
  let map0 := containers.foldl (fun m c => mapSet m { c with items := [] }) []
  let fp := firstPass sortedItems map0
  if fp.unplacedItems.isEmpty then
    ⟨true, fp.placements, [], fp.containerMap⟩
  else
    let r := rearrangeForUnplacedItems priorityOf fp.unplacedItems fp.containerMap
    ⟨fp.unplacedItems.isEmpty || !r.rearrangements.isEmpty,
      fp.placements ++ r.placements, r.rearrangements, r.containerMap⟩

/-- DBState models the in-memory database of part_004 as far as placeItem
touches it: the item map and the container map, each an insertion-ordered
list with Map.set update semantics. Logging does not affect any state the
claims mention and is omitted. -/
structure DBState where
  items : List Item
  containers : List Container
deriving DecidableEq, Repr

def dbGetItem (db : DBState) (itemId : String) : Option Item :=
  db.items.find? (fun i => i.itemId == itemId)

def dbGetContainer (db : DBState) (containerId : String) : Option Container :=
  db.containers.find? (fun c => c.containerId == containerId)

def dbUpdateItem (db : DBState) (item : Item) : DBState :=
  { db with
      items :=
        if db.items.any (fun i => i.itemId == item.itemId) then
          db.items.map (fun i => if i.itemId == item.itemId then item else i)
        else
          db.items ++ [item] }

def dbUpdateContainer (db : DBState) (c : Container) : DBState :=
  { db with containers := mapSet db.containers c }

/-- placeItem from retrieval-service.js: fail without touching anything
when the item id is unknown, the container id is unknown, or canFitItem
rejects the requested position; otherwise remove the item from its previous
container (a containerId that is the empty string is falsy in JavaScript
and skips the removal), update the item fields, add it to the target
container and report success. The userId and timestamp arguments only feed
the audit log and are omitted. -/
def placeItem (db : DBState) (itemId containerId : String) (position : Position) :
    Bool × DBState :=
  match dbGetItem db itemId with
  | none => (false, db)
  | some item =>
    match dbGetContainer db containerId with
    | none => (false, db)
    | some container =>
      if container.canFitItem item position then
        let db1 :=
          match item.containerId with
          | none => db
          | some oldId =>
            if oldId == "" then db
            else
              match dbGetContainer db oldId with
              | none => db
              | some oldC => dbUpdateContainer db (oldC.removeItem itemId).1
        let item1 := { item with containerId := some containerId, position := some position }
        let db2 := dbUpdateItem db1 item1
        match dbGetContainer db2 containerId with
        | none => (true, db2)
        | some target => (true, dbUpdateContainer db2 (target.addItem item1 position).1)
      else
        (false, db)

/-- ContainerOp enumerates the two primitive mutations of a container; every
mutation the placement, rearrangement and placeItem code performs on a
container goes through one of them. -/
inductive ContainerOp where
  | add (item : Item) (position : Position)
  | remove (itemId : String)
deriving DecidableEq, Repr

def applyOp (c : Container) : ContainerOp → Container
  | .add item position => (c.addItem item position).1
  | .remove itemId => (c.removeItem itemId).1

def applyOps (ops : List ContainerOp) (c : Container) : Container :=
  ops.foldl applyOp c

/-- pairwiseDisjoint states the no-overlap invariant for one container:
any record is separated from any later record by the separating-axis test. -/
def pairwiseDisjoint (c : Container) : Prop :=
  List.Pairwise (fun r s => itemsOverlap r.position s.position = false) c.items

/-
Concrete inputs used by the counterexample and failing-input theorems. Each
claim keeps its own inputs so the theorems stay independent.
-/

def lostItemF : Item :=
  { itemId := "F", name := "F", width := 1, depth := 1, height := 1,
    priority := 1, preferredZone := "Z" }

def unplacedItemH : Item :=
  { itemId := "H", name := "H", width := 2, depth := 1, height := 1,
    priority := 5, preferredZone := "Z" }

def containerX1 : Container :=
  { containerId := "X", zone := "Z", width := 2, depth := 1, height := 1,
    items := [⟨lostItemF, ⟨⟨0, 0, 0⟩, ⟨1, 1, 1⟩⟩⟩] }

def dbPrioFOnly : String → Option Int := fun id => if id == "F" then some 1 else none

def fillerItemF2 : Item :=
  { itemId := "F", name := "F", width := 2, depth := 1, height := 1,
    priority := 9, preferredZone := "Z" }

def batchItemH1 : Item :=
  { itemId := "H1", name := "H1", width := 2, depth := 1, height := 1,
    priority := 5, preferredZone := "Z" }

def batchItemH2 : Item :=
  { itemId := "H2", name := "H2", width := 2, depth := 1, height := 1,
    priority := 4, preferredZone := "Z" }

def batchContainerX : Container :=
  { containerId := "X", zone := "Z", width := 2, depth := 1, height := 1, items := [] }

def dbPrioBatch : String → Option Int := fun id => if id == "F" then some 1 else none

def storedItemA : Item :=
  { itemId := "A", name := "A", width := 4, depth := 4, height := 4,
    priority := 5, preferredZone := "Z" }

def storedPosA : Position := ⟨⟨0, 0, 0⟩, ⟨4, 4, 4⟩⟩

def requestItemB : Item :=
  { itemId := "B", name := "B", width := 4, depth := 4, height := 4,
    priority := 3, preferredZone := "Z" }

def storedContainerC1 : Container :=
  { containerId := "C1", zone := "Z", width := 10, depth := 10, height := 10,
    items := [⟨storedItemA, storedPosA⟩] }

def noPrio : String → Option Int := fun _ => none

def evictedItemL : Item :=
  { itemId := "L", name := "L", width := 1, depth := 1, height := 1,
    priority := 1, preferredZone := "Z" }

def doubleItemH : Item :=
  { itemId := "H", name := "H", width := 2, depth := 1, height := 1,
    priority := 9, preferredZone := "Z" }

def containerX4 : Container :=
  { containerId := "X", zone := "Z", width := 3, depth := 1, height := 1,
    items := [⟨evictedItemL, ⟨⟨1, 0, 0⟩, ⟨2, 1, 1⟩⟩⟩] }

def containerY4 : Container :=
  { containerId := "Y", zone := "Z", width := 2, depth := 1, height := 1, items := [] }

def dbPrioLOnly : String → Option Int := fun id => if id == "L" then some 1 else none

def dupItemA : Item :=
  { itemId := "A", name := "A", width := 1, depth := 1, height := 1,
    priority := 1, preferredZone := "Z" }

def dupContainerC : Container :=
  { containerId := "C", zone := "Z", width := 2, depth := 1, height := 1,
    items := [⟨dupItemA, ⟨⟨0, 0, 0⟩, ⟨1, 1, 1⟩⟩⟩] }

def dupPosA2 : Position := ⟨⟨1, 0, 0⟩, ⟨2, 1, 1⟩⟩

/-- Claim C1 (code_bug evaluation): at the failing input, the rearrangement
resolver evicts occupant F from container X, places the unplaced item H
over the freed space, fails to re-home F, records a place step returning F
to its original slot, but the ignored addItem put-back fails because H now
covers that slot: F ends the pass in no container at all, contradicting the
stated guarantee that every evicted occupant ends the pass in exactly one
container. -/
theorem rearrange_drops_evicted_occupant :
    ((rearrangeForUnplacedItems dbPrioFOnly [unplacedItemH] [containerX1]).containerMap.all
      (fun c => c.items.all (fun r => !(r.item.itemId == "F")))) = true ∧
    (((rearrangeForUnplacedItems dbPrioFOnly [unplacedItemH] [containerX1]).rearrangements.filter
      (fun s => s.itemId == "F" && s.action == "place")).length = 1) := by
  decide

/-- Claim C2 (counterexample): with one 2x1x1 container and three 2x1x1
items F (priority 9), H1 (priority 5), H2 (priority 4), where the database
priority of F is 1: F fills the container in the first pass, H1 and H2 stay
unplaced, the rearrangement pass evicts F and places H1 (recording steps),
and H2 remains unplaced everywhere; still the returned success flag is
true, because the source computes success as no-unplaced-items OR
nonempty-rearrangements rather than from every item being placed. -/
theorem success_true_with_unplaced_item :
    (findOptimalPlacement dbPrioBatch [fillerItemF2, batchItemH1, batchItemH2]
      [batchContainerX]).success = true ∧
    ((findOptimalPlacement dbPrioBatch [fillerItemF2, batchItemH1, batchItemH2]
      [batchContainerX]).placements.all (fun p => !(p.itemId == "H2"))) = true ∧
    ((findOptimalPlacement dbPrioBatch [fillerItemF2, batchItemH1, batchItemH2]
      [batchContainerX]).containerMap.all
      (fun c => c.items.all (fun r => !(r.item.itemId == "H2")))) = true := by
  decide

/-- Claim C2 (amended): the success flag equals the literal source formula:
true iff the first pass left no item unplaced or the rearrangement pass
recorded at least one step; an item may remain unplaced while success is
true. -/
theorem findOptimalPlacement_success_formula :
    ∀ (priorityOf : String → Option Int) (items : List Item) (containers : List Container),
      (findOptimalPlacement priorityOf items containers).success =
        ((firstPass (insertionSortB (fun a b => b.priority ≤ a.priority) items)
            (containers.foldl (fun m c => mapSet m { c with items := [] }) [])).unplacedItems.isEmpty
          || !(findOptimalPlacement priorityOf items containers).rearrangements.isEmpty) := by
  intro priorityOf items containers
  simp only [findOptimalPlacement]
  cases h : (firstPass (insertionSortB (fun a b => b.priority ≤ a.priority) items)
      (containers.foldl (fun m c => mapSet m { c with items := [] }) [])).unplacedItems.isEmpty <;>
    simp [h]

/-- Claim C3 (counterexample): container C1 already holds item A filling
the region (0,0,0)-(4,4,4); a placement request for the 4x4x4 item B
returns the position (0,0,0)-(4,4,4), overlapping the already placed A,
because findOptimalPlacement computes against containers whose items array
is reset to empty. -/
theorem placement_overlaps_existing_occupant :
    (findOptimalPlacement noPrio [requestItemB] [storedContainerC1]).placements =
      [⟨"B", "C1", ⟨⟨0, 0, 0⟩, ⟨4, 4, 4⟩⟩⟩] ∧
    itemsOverlap storedPosA ⟨⟨0, 0, 0⟩, ⟨4, 4, 4⟩⟩ = true := by
  decide

/-- Claim C3 (amended): placement is computed against empty copies of the
supplied containers; the result of findOptimalPlacement is entirely
independent of the occupancy the supplied containers arrive with. -/
theorem findOptimalPlacement_ignores_existing_occupancy :
    ∀ (priorityOf : String → Option Int) (items : List Item) (containers : List Container),
      findOptimalPlacement priorityOf items containers =
        findOptimalPlacement priorityOf items
          (containers.map (fun c => { c with items := [] })) := by
  intro priorityOf items containers
  simp only [findOptimalPlacement, List.foldl_map]

/-- Claim C4 (counterexample): container X (3x1x1) holds the low-priority
item L at (1,0,0)-(2,1,1) and container Y (2x1x1) is empty; for the
unplaced 2x1x1 item H of priority 9, the resolver evicts L from X, places
H in X, re-homes L into Y, and then — because only the occupant loop is
left after an eviction-based success, not the container loop — it also
evicts L from Y and places H a second time in Y: H ends the pass with
placement records in two containers. -/
theorem rearrange_places_item_twice :
    (((rearrangeForUnplacedItems dbPrioLOnly [doubleItemH] [containerX4, containerY4]).placements.filter
      (fun p => p.itemId == "H")).length = 2) ∧
    (((rearrangeForUnplacedItems dbPrioLOnly [doubleItemH] [containerX4, containerY4]).containerMap.filter
      (fun c => c.items.any (fun r => r.item.itemId == "H"))).length = 2) := by
  decide

/-- Claim C9 (counterexample): adding an item whose id is already placed in
the container at a non-overlapping in-bounds position succeeds and leaves
two placed records with the same id, because canFitItem never examines
ids. -/
theorem addItem_duplicate_id :
    (dupContainerC.addItem dupItemA dupPosA2).2 = true ∧
    ((dupContainerC.addItem dupItemA dupPosA2).1.items.filter
      (fun r => r.item.itemId == "A")).length = 2 := by
  decide

/-- Claim C9 (amended): addItem inserts a record iff canFitItem holds,
never removes or overwrites existing records, and the number of records
carrying the added id grows by one whenever canFitItem holds — so a
duplicate id appears when the id was already present at a non-overlapping
position. -/
theorem addItem_semantics :
    ∀ (c : Container) (item : Item) (pos : Position),
      ((c.addItem item pos).2 = c.canFitItem item pos) ∧
      ((c.addItem item pos).1.items.length =
        if c.canFitItem item pos then c.items.length + 1 else c.items.length) ∧
      (∀ r ∈ c.items, r ∈ (c.addItem item pos).1.items) ∧
      (((c.addItem item pos).1.items.filter (fun r => r.item.itemId == item.itemId)).length =
        (c.items.filter (fun r => r.item.itemId == item.itemId)).length +
          (if c.canFitItem item pos then 1 else 0)) := by
  intro c item pos
  cases h : c.canFitItem item pos
  · simp [Container.addItem, h]
  · simp [Container.addItem, h, List.filter_append]
    exact fun r hr => Or.inl hr

/-- Claim C10: placeItem fails and leaves the whole database state exactly
unchanged when the item id is absent, when the target container id is
absent, or when canFitItem rejects the requested position; all mutation in
the source happens only after these three checks pass. -/
theorem placeItem_failure_frame :
    ∀ (db : DBState) (itemId containerId : String) (position : Position),
      (dbGetItem db itemId = none → placeItem db itemId containerId position = (false, db)) ∧
      (∀ item, dbGetItem db itemId = some item → dbGetContainer db containerId = none →
        placeItem db itemId containerId position = (false, db)) ∧
      (∀ item c, dbGetItem db itemId = some item → dbGetContainer db containerId = some c →
        c.canFitItem item position = false →
        placeItem db itemId containerId position = (false, db)) := by
  intro db itemId containerId position
  refine ⟨fun h => ?_, fun item h1 h2 => ?_, fun item c h1 h2 h3 => ?_⟩
  · simp [placeItem, h]
  · simp [placeItem, h1, h2]
  · simp [placeItem, h1, h2, h3]

theorem pairsFrom_map_action : ∀ (l : List PlacedRecord) (n : Nat),
    (pairsFrom n l).map (fun s => (s.action, s.itemId)) =
      l.flatMap (fun r => [("remove", r.item.itemId), ("setAside", r.item.itemId)]) := by
  intro l
  induction l with
  | nil => intro n; rfl
  | cons r rest ih => intro n; simp [pairsFrom, ih]

theorem placeBacksFrom_map_action : ∀ (l : List PlacedRecord) (n : Nat),
    (placeBacksFrom n l).map (fun s => (s.action, s.itemId)) =
      l.map (fun r => ("placeBack", r.item.itemId)) := by
  intro l
  induction l with
  | nil => intro n; rfl
  | cons r rest ih => intro n; simp [placeBacksFrom, ih]

theorem pairsFrom_filter_remove : ∀ (l : List PlacedRecord) (n : Nat),
    ((pairsFrom n l).filter (fun s => s.action == "remove")).length = l.length := by
  intro l
  induction l with
  | nil => intro n; rfl
  | cons r rest ih => intro n; simp [pairsFrom, List.filter_cons, ih]

theorem pairsFrom_filter_placeBack : ∀ (l : List PlacedRecord) (n : Nat),
    ((pairsFrom n l).filter (fun s => s.action == "placeBack")).length = 0 := by
  intro l
  induction l with
  | nil => intro n; rfl
  | cons r rest ih => intro n; simp [pairsFrom, List.filter_cons, ih]

theorem placeBacksFrom_filter_remove : ∀ (l : List PlacedRecord) (n : Nat),
    ((placeBacksFrom n l).filter (fun s => s.action == "remove")).length = 0 := by
  intro l
  induction l with
  | nil => intro n; rfl
  | cons r rest ih => intro n; simp [placeBacksFrom, List.filter_cons, ih]

theorem placeBacksFrom_filter_placeBack : ∀ (l : List PlacedRecord) (n : Nat),
    ((placeBacksFrom n l).filter (fun s => s.action == "placeBack")).length = l.length := by
  intro l
  induction l with
  | nil => intro n; rfl
  | cons r rest ih => intro n; simp [placeBacksFrom, List.filter_cons, ih]

/-- Claim C5: the retrieval step list has stack discipline. Projected to
(action, itemId) pairs, the list is: one remove/setAside pair per blocking
record in the order getItemsToMove returns them, then the retrieve for the
target, then one placeBack per blocking record in exact reverse order; in
particular an empty blocking list gives the single retrieve step, and the
number of placeBack steps equals the number of remove steps. The source
only reads the container, so the embedding is a pure function of it and
the container is not mutated. -/
theorem calculateRetrievalSteps_stack_discipline :
    ∀ (getName : String → String) (itemId : String) (c : Container),
      ((calculateRetrievalSteps getName itemId c).map (fun s => (s.action, s.itemId)) =
        ((c.getItemsToMove itemId).flatMap
          (fun r => [("remove", r.item.itemId), ("setAside", r.item.itemId)])) ++
        [("retrieve", itemId)] ++
        ((c.getItemsToMove itemId).reverse.map (fun r => ("placeBack", r.item.itemId)))) ∧
      (((calculateRetrievalSteps getName itemId c).filter
          (fun s => s.action == "placeBack")).length =
        ((calculateRetrievalSteps getName itemId c).filter
          (fun s => s.action == "remove")).length) := by
  intro getName itemId c
  constructor
  · simp only [calculateRetrievalSteps]
    cases h : (c.getItemsToMove itemId).isEmpty
    · simp only [h, Bool.false_eq_true, if_false, List.map_append]
      rw [pairsFrom_map_action, placeBacksFrom_map_action]
      simp
    · rw [List.isEmpty_iff] at h
      simp [h]
  · simp only [calculateRetrievalSteps]
    cases h : (c.getItemsToMove itemId).isEmpty
    · simp only [h, Bool.false_eq_true, if_false, List.filter_append, List.length_append]
      rw [pairsFrom_filter_remove, pairsFrom_filter_placeBack,
        placeBacksFrom_filter_remove, placeBacksFrom_filter_placeBack]
      simp
    · simp [h]

theorem blocksTarget_eq_decide (targetId : String) (tPos : Position) (r : PlacedRecord) :
    blocksTarget targetId tPos r =
      decide (¬ r.item.itemId = targetId ∧
        r.position.startCoordinates.depth < tPos.startCoordinates.depth ∧
        ((r.position.startCoordinates.width < tPos.endCoordinates.width ∧
          tPos.startCoordinates.width < r.position.endCoordinates.width) ∧
         (r.position.startCoordinates.height < tPos.endCoordinates.height ∧
          tPos.startCoordinates.height < r.position.endCoordinates.height))) := by
  by_cases h : r.item.itemId = targetId
  · simp [blocksTarget, h]
  · rw [Bool.eq_iff_iff]
    simp only [blocksTarget, beq_iff_eq, if_neg h, decide_eq_true_eq, Bool.and_eq_true,
      Bool.not_eq_true', Bool.or_eq_false_iff, decide_eq_false_iff_not, not_le, not_lt]
    constructor
    · rintro ⟨hd, hrest⟩
      refine ⟨h, hd, ?_⟩
      omega
    · rintro ⟨-, hd, hov⟩
      refine ⟨hd, ?_⟩
      omega

/-- Claim C8: getItemsToMove returns exactly the records, in container
insertion order (the filter preserves the order of the items array), whose
id differs from the target, whose depth start coordinate is strictly lower
than that of the target, and whose width and height projections both
strictly overlap those of the target; and it returns the empty list when
the target id is not present. -/
theorem getItemsToMove_characterization :
    ∀ (c : Container) (itemId : String),
      (c.findItem itemId = none → c.getItemsToMove itemId = []) ∧
      (∀ t, c.findItem itemId = some t →
        c.getItemsToMove itemId = c.items.filter (fun r =>
          decide (¬ r.item.itemId = itemId ∧
            r.position.startCoordinates.depth < t.position.startCoordinates.depth ∧
            ((r.position.startCoordinates.width < t.position.endCoordinates.width ∧
              t.position.startCoordinates.width < r.position.endCoordinates.width) ∧
             (r.position.startCoordinates.height < t.position.endCoordinates.height ∧
              t.position.startCoordinates.height < r.position.endCoordinates.height))))) := by
  intro c itemId
  constructor
  · intro h
    simp [Container.getItemsToMove, h]
  · intro t ht
    simp only [Container.getItemsToMove, ht]
    exact List.filter_congr (fun r _ => blocksTarget_eq_decide itemId t.position r)

theorem tryRehome_placements : ∀ (ids : List String) (rec : PlacedRecord) (skip : String)
    (st : RearrangeState), (tryRehome rec skip ids st).1.placements = st.placements := by
  intro ids
  induction ids with
  | nil => intro rec skip st; rfl
  | cons cid rest ih =>
    intro rec skip st
    simp only [tryRehome]
    split
    · exact ih rec skip st
    · split
      · exact ih rec skip st
      · split
        · exact ih rec skip st
        · rfl

theorem processOccupants_at_most_one_placement :
    ∀ (occs : List PlacedRecord) (item : Item) (cid : String) (sortedIds : List String)
      (st : RearrangeState),
      ((processOccupants item cid sortedIds occs st).2 = false ∧
        (processOccupants item cid sortedIds occs st).1.placements = st.placements) ∨
      (∃ pos, (processOccupants item cid sortedIds occs st).2 = true ∧
        (processOccupants item cid sortedIds occs st).1.placements =
          st.placements ++ [⟨item.itemId, cid, pos⟩]) := by
  intro occs
  induction occs with
  | nil => intro item cid sortedIds st; exact Or.inl ⟨rfl, rfl⟩
  | cons occ rest ih =>
    intro item cid sortedIds st
    simp only [processOccupants]
    split
    · exact Or.inl ⟨rfl, rfl⟩
    · rename_i c hc
      split
      · exact ih item cid sortedIds _
      · rename_i newPos hpos
        have htr := tryRehome_placements sortedIds occ cid
        split
        · rename_i st2 hre
          refine Or.inr ⟨newPos, rfl, ?_⟩
          have h3 := congrArg RearrangeState.placements (congrArg Prod.fst hre)
          rw [htr] at h3
          exact h3.symm
        · rename_i st2 hre
          have h3 := congrArg RearrangeState.placements (congrArg Prod.fst hre)
          rw [htr] at h3
          split
          · exact Or.inr ⟨newPos, rfl, h3.symm⟩
          · exact Or.inr ⟨newPos, rfl, h3.symm⟩

theorem tryContainers_stops_after_direct_fit :
    ∀ (priorityOf : String → Option Int) (item : Item) (sortedIds : List String)
      (cid : String) (rest : List String) (st : RearrangeState) (c : Container) (pos : Position),
      getC st.containerMap cid = some c → findPositionInContainer item c = some pos →
      tryContainers priorityOf item sortedIds (cid :: rest) st =
        tryContainers priorityOf item sortedIds [cid] st := by
  intro priorityOf item sortedIds cid rest st c pos h1 h2
  simp only [tryContainers, h1, h2]

/-- Claim C4 (amended): per candidate container the occupant loop records
at most one placement for the unplaced item — it stops trying further
occupants after the first successful eviction — and a direct (eviction
free) fit ends the container loop, the remaining containers being ignored;
but after an eviction-based placement only the occupant loop ends, the
container loop continues, so the item can be placed again in a later
container (the counterexample shows a pass ending with placement records
in two containers). -/
theorem rearrange_single_eviction_per_container :
    (∀ (occs : List PlacedRecord) (item : Item) (cid : String) (sortedIds : List String)
      (st : RearrangeState),
      ((processOccupants item cid sortedIds occs st).2 = false ∧
        (processOccupants item cid sortedIds occs st).1.placements = st.placements) ∨
      (∃ pos, (processOccupants item cid sortedIds occs st).2 = true ∧
        (processOccupants item cid sortedIds occs st).1.placements =
          st.placements ++ [⟨item.itemId, cid, pos⟩])) ∧
    (∀ (priorityOf : String → Option Int) (item : Item) (sortedIds : List String)
      (cid : String) (rest : List String) (st : RearrangeState) (c : Container) (pos : Position),
      getC st.containerMap cid = some c → findPositionInContainer item c = some pos →
      tryContainers priorityOf item sortedIds (cid :: rest) st =
        tryContainers priorityOf item sortedIds [cid] st) :=
  ⟨processOccupants_at_most_one_placement, tryContainers_stops_after_direct_fit⟩

/-- lexLt is the visit order of the scan: earlier height layer first, then
earlier depth row, then earlier width column. -/
def lexLt (a b : Int × Int × Int) : Prop :=
  a.1 < b.1 ∨ (a.1 = b.1 ∧ (a.2.1 < b.2.1 ∨ (a.2.1 = b.2.1 ∧ a.2.2 < b.2.2)))

/-- inScan states that (x, y, z) is one of the integer origins the three
nested loops visit. -/
def inScan (item : Item) (c : Container) (x y z : Int) : Prop :=
  (0 ≤ x ∧ x + item.width ≤ c.width) ∧
  (0 ≤ y ∧ y + item.depth ≤ c.depth) ∧
  (0 ≤ z ∧ z + item.height ≤ c.height)

/-- fitsAt evaluates canFitItem at the candidate box with origin (x, y, z). -/
def fitsAt (item : Item) (c : Container) (x y z : Int) : Bool :=
  c.canFitItem item (originPosition item x y z)

theorem mem_scanRange {W w x : Int} : x ∈ scanRange W w ↔ 0 ≤ x ∧ x + w ≤ W := by
  simp only [scanRange, List.mem_map, List.mem_range]
  constructor
  · rintro ⟨n, hn, rfl⟩
    omega
  · rintro ⟨h0, h1⟩
    exact ⟨x.toNat, by omega, by omega⟩

theorem scanRange_pairwise (W w : Int) : (scanRange W w).Pairwise (· < ·) := by
  unfold scanRange
  exact (List.pairwise_lt_range _).map (Nat.cast : Nat → Int)
    (fun a b h => by exact_mod_cast h)

theorem mem_scanOrigins {item : Item} {c : Container} {t : Int × Int × Int} :
    t ∈ scanOrigins item c ↔ inScan item c t.2.2 t.2.1 t.1 := by
  obtain ⟨z, y, x⟩ := t
  simp only [scanOrigins, List.mem_flatMap, List.mem_map, inScan, mem_scanRange,
    Prod.mk.injEq]
  constructor
  · rintro ⟨z', hz, y', hy, x', hx, rfl, rfl, rfl⟩
    exact ⟨hx, hy, hz⟩
  · rintro ⟨hx, hy, hz⟩
    exact ⟨z, hz, y, hy, x, hx, rfl, rfl, rfl⟩

theorem scanOrigins_pairwise (item : Item) (c : Container) :
    (scanOrigins item c).Pairwise lexLt := by
  unfold scanOrigins
  rw [List.pairwise_flatMap]
  constructor
  · intro z hz
    rw [List.pairwise_flatMap]
    constructor
    · intro y hy
      exact (scanRange_pairwise _ _).map _
        (fun a b h => Or.inr ⟨rfl, Or.inr ⟨rfl, h⟩⟩)
    · refine (scanRange_pairwise _ _).imp ?_
      intro y1 y2 hlt p hp q hq
      rcases List.mem_map.mp hp with ⟨x1, -, rfl⟩
      rcases List.mem_map.mp hq with ⟨x2, -, rfl⟩
      exact Or.inr ⟨rfl, Or.inl hlt⟩
  · refine (scanRange_pairwise _ _).imp ?_
    intro z1 z2 hlt p hp q hq
    rcases List.mem_flatMap.mp hp with ⟨y1, -, hp2⟩
    rcases List.mem_map.mp hp2 with ⟨x1, -, rfl⟩
    rcases List.mem_flatMap.mp hq with ⟨y2, -, hq2⟩
    rcases List.mem_map.mp hq2 with ⟨x2, -, rfl⟩
    exact Or.inl hlt

theorem find?_eq_some_split {α : Type} {p : α → Bool} {l : List α} {a : α} :
    l.find? p = some a ↔
      ∃ l₁ l₂, l = l₁ ++ a :: l₂ ∧ (∀ b ∈ l₁, p b = false) ∧ p a = true := by
  induction l with
  | nil => simp
  | cons x xs ih =>
    cases h : p x with
    | true =>
      rw [List.find?_cons_of_pos _ h]
      constructor
      · rintro heq
        injection heq with heq
        subst heq
        exact ⟨[], xs, rfl, by simp, h⟩
      · rintro ⟨l₁, l₂, heq, hfail, ha⟩
        cases l₁ with
        | nil =>
          injection heq with h1 h2
          subst h1
          rfl
        | cons b bs =>
          injection heq with h1 h2
          subst h1
          exact absurd h (by simp [hfail x (by simp)])
    | false =>
      rw [List.find?_cons_of_neg _ (by simp [h]), ih]
      constructor
      · rintro ⟨l₁, l₂, rfl, hfail, ha⟩
        refine ⟨x :: l₁, l₂, rfl, ?_, ha⟩
        intro b hb
        rcases List.mem_cons.mp hb with rfl | hb
        · exact h
        · exact hfail b hb
      · rintro ⟨l₁, l₂, heq, hfail, ha⟩
        cases l₁ with
        | nil =>
          injection heq with h1 h2
          subst h1
          exact absurd ha (by simp [h])
        | cons b bs =>
          injection heq with h1 h2
          subst h1
          subst h2
          exact ⟨bs, l₂, rfl, fun b hb => hfail b (by simp [hb]), ha⟩

theorem lexLt_asymm {a b : Int × Int × Int} (h1 : lexLt a b) (h2 : lexLt b a) : False := by
  rcases h1 with h | ⟨e1, h | ⟨e2, h⟩⟩ <;> rcases h2 with g | ⟨f1, g | ⟨f2, g⟩⟩ <;> omega

theorem lexLt_irrefl (a : Int × Int × Int) (h : lexLt a a) : False := by
  rcases h with h | ⟨e1, h | ⟨e2, h⟩⟩ <;> omega

def scanItemB : Item :=
  { itemId := "B", name := "B", width := 4, depth := 4, height := 4,
    priority := 3, preferredZone := "Z" }

def scanItemA : Item :=
  { itemId := "A", name := "A", width := 4, depth := 4, height := 4,
    priority := 5, preferredZone := "Z" }

def scanContainerC1 : Container :=
  { containerId := "C1", zone := "Z", width := 10, depth := 10, height := 10,
    items := [⟨scanItemA, ⟨⟨0, 0, 0⟩, ⟨4, 4, 4⟩⟩⟩] }

/-- Claim C6: findPositionInContainer returns the box at the first integer
origin, in the nesting order height outermost, depth middle, width
innermost (lexicographic on (z, y, x)), at which canFitItem holds; it
returns none exactly when some item dimension exceeds the corresponding
container dimension or no scanned origin fits (the second and first
conjuncts together give the exactness); and in the 10x10x10 container
holding one 4x4x4 item at (0,0,0)-(4,4,4), placing a second 4x4x4 item
returns start (4,0,0). -/
theorem findPositionInContainer_first_fit :
    (∀ (item : Item) (c : Container) (pos : Position),
      findPositionInContainer item c = some pos →
      ∃ x y z : Int, pos = originPosition item x y z ∧ inScan item c x y z ∧
        fitsAt item c x y z = true ∧
        ∀ x' y' z' : Int, inScan item c x' y' z' → lexLt (z', y', x') (z, y, x) →
          fitsAt item c x' y' z' = false) ∧
    (∀ (item : Item) (c : Container),
      findPositionInContainer item c = none →
      (item.width > c.width ∨ item.depth > c.depth ∨ item.height > c.height) ∨
      ∀ x y z : Int, inScan item c x y z → fitsAt item c x y z = false) ∧
    (∀ (item : Item) (c : Container),
      (item.width > c.width ∨ item.depth > c.depth ∨ item.height > c.height) →
      findPositionInContainer item c = none) ∧
    findPositionInContainer scanItemB scanContainerC1 =
      some ⟨⟨4, 0, 0⟩, ⟨8, 4, 4⟩⟩ := by
  refine ⟨?_, ?_, ?_, by decide⟩
  · intro item c pos h
    unfold findPositionInContainer at h
    split at h
    · exact absurd h (by simp)
    · split at h
      · rename_i t hfind
        obtain ⟨z, y, x⟩ := t
        injection h with h
        refine ⟨x, y, z, h.symm, ?_, ?_, ?_⟩
        · exact mem_scanOrigins.mp (List.mem_of_find?_eq_some hfind)
        · have hf := List.find?_some hfind
          simpa [fitsAt] using hf
        · rcases find?_eq_some_split.mp hfind with ⟨l₁, l₂, hsplit, hfail, -⟩
          intro x' y' z' hin hlex
          have ht' : (z', y', x') ∈ scanOrigins item c := mem_scanOrigins.mpr hin
          rw [hsplit] at ht'
          rcases List.mem_append.mp ht' with hmem | hmem
          · have hf := hfail _ hmem
            simpa [fitsAt] using hf
          · rcases List.mem_cons.mp hmem with heq | hmem
            · exfalso
              rw [heq] at hlex
              exact lexLt_irrefl _ hlex
            · exfalso
              have hp := scanOrigins_pairwise item c
              rw [hsplit] at hp
              have h2 := (List.pairwise_append.mp hp).2.1
              have h3 := (List.pairwise_cons.mp h2).1 _ hmem
              exact lexLt_asymm hlex h3
      · exact absurd h (by simp)
  · intro item c h
    unfold findPositionInContainer at h
    split at h
    · rename_i hcond
      left
      simp only [Bool.or_eq_true, decide_eq_true_eq] at hcond
      tauto
    · split at h
      · exact absurd h (by simp)
      · rename_i hfind
        right
        intro x y z hin
        have hf := List.find?_eq_none.mp hfind _
          ((mem_scanOrigins (t := (z, y, x))).mpr hin)
        simpa [fitsAt] using hf
  · intro item c h
    rcases h with h | h | h <;> simp [findPositionInContainer, h]

theorem canFitItem_disjoint {c : Container} {item : Item} {pos : Position}
    (h : c.canFitItem item pos = true) :
    ∀ r ∈ c.items, itemsOverlap r.position pos = false := by
  intro r hr
  unfold Container.canFitItem at h
  split at h
  · exact absurd h (by simp)
  · have h2 := (List.all_eq_true.mp h) r hr
    simpa using h2

theorem addItem_pairwise {c : Container} (item : Item) (pos : Position)
    (h : pairwiseDisjoint c) : pairwiseDisjoint (c.addItem item pos).1 := by
  unfold Container.addItem
  split
  · rename_i hfit
    unfold pairwiseDisjoint at h ⊢
    rw [List.pairwise_append]
    refine ⟨h, by simp, ?_⟩
    intro a ha b hb
    rcases List.mem_singleton.mp hb with rfl
    exact canFitItem_disjoint hfit a ha
  · exact h

theorem removeItem_pairwise {c : Container} (itemId : String)
    (h : pairwiseDisjoint c) : pairwiseDisjoint (c.removeItem itemId).1 := by
  unfold Container.removeItem
  split
  · exact h
  · exact List.Pairwise.sublist (List.eraseP_sublist _) h

theorem applyOps_pairwise : ∀ (ops : List ContainerOp) (c : Container),
    pairwiseDisjoint c → pairwiseDisjoint (applyOps ops c) := by
  intro ops
  induction ops with
  | nil => intro c h; exact h
  | cons op rest ih =>
    intro c h
    have h1 : pairwiseDisjoint (applyOp c op) := by
      cases op with
      | add item pos => exact addItem_pairwise item pos h
      | remove itemId => exact removeItem_pairwise itemId h
    exact ih _ h1

theorem foldl_preserves {α β : Type} {P : α → Prop} {f : α → β → α}
    (h : ∀ st a, P st → P (f st a)) : ∀ (l : List β) (st : α), P st → P (l.foldl f st) := by
  intro l
  induction l with
  | nil => intro st hst; exact hst
  | cons a rest ih => intro st hst; exact ih _ (h st a hst)

theorem mapSet_inv {m : List Container} {c : Container}
    (hm : ∀ d ∈ m, pairwiseDisjoint d) (hc : pairwiseDisjoint c) :
    ∀ d ∈ mapSet m c, pairwiseDisjoint d := by
  intro d hd
  unfold mapSet at hd
  split at hd
  · rcases List.mem_map.mp hd with ⟨e, he, rfl⟩
    split
    · exact hc
    · exact hm e he
  · rcases List.mem_append.mp hd with hd | hd
    · exact hm d hd
    · rcases List.mem_singleton.mp hd with rfl
      exact hc

theorem getC_mem {m : List Container} {cid : String} {c : Container}
    (h : getC m cid = some c) : c ∈ m :=
  List.mem_of_find?_eq_some h

theorem tryRehome_inv : ∀ (ids : List String) (rec : PlacedRecord) (skip : String)
    (st : RearrangeState), (∀ d ∈ st.containerMap, pairwiseDisjoint d) →
    ∀ d ∈ (tryRehome rec skip ids st).1.containerMap, pairwiseDisjoint d := by
  intro ids
  induction ids with
  | nil => intro rec skip st h; exact h
  | cons cid rest ih =>
    intro rec skip st h
    simp only [tryRehome]
    split
    · exact ih rec skip st h
    · split
      · exact ih rec skip st h
      · rename_i oc hoc
        split
        · exact ih rec skip st h
        · exact mapSet_inv h (addItem_pairwise _ _ (h _ (getC_mem hoc)))

theorem processOccupants_inv : ∀ (occs : List PlacedRecord) (item : Item) (cid : String)
    (sortedIds : List String) (st : RearrangeState),
    (∀ d ∈ st.containerMap, pairwiseDisjoint d) →
    ∀ d ∈ (processOccupants item cid sortedIds occs st).1.containerMap, pairwiseDisjoint d := by
  intro occs
  induction occs with
  | nil => intro item cid sortedIds st h; exact h
  | cons occ rest ih =>
    intro item cid sortedIds st h
    simp only [processOccupants]
    split
    · exact h
    · rename_i c hc
      have hcd : pairwiseDisjoint c := h _ (getC_mem hc)
      have hc1 : pairwiseDisjoint (c.removeItem occ.item.itemId).1 :=
        removeItem_pairwise _ hcd
      split
      · exact ih item cid sortedIds ⟨_, _, _, _⟩
          (mapSet_inv h (addItem_pairwise _ _ hc1))
      · rename_i newPos hpos
        have hst1 : ∀ d ∈ mapSet st.containerMap
            ((c.removeItem occ.item.itemId).1.addItem item newPos).1, pairwiseDisjoint d :=
          mapSet_inv h (addItem_pairwise _ _ hc1)
        have h2 := tryRehome_inv sortedIds occ cid
          ⟨mapSet st.containerMap ((c.removeItem occ.item.itemId).1.addItem item newPos).1,
           st.placements ++ [⟨item.itemId, cid, newPos⟩],
           st.rearrangements ++
             [⟨st.step, "remove", occ.item.itemId, some cid, some occ.position, none, none⟩,
              ⟨st.step + 1, "place", item.itemId, none, none, some cid, some newPos⟩],
           st.step + 2⟩ hst1
        split
        · rename_i st2 hre
          rw [hre] at h2
          exact h2
        · rename_i st2 hre
          rw [hre] at h2
          split
          · exact h2
          · rename_i c2 hc2
            exact mapSet_inv h2 (addItem_pairwise _ _ (h2 _ (getC_mem hc2)))

theorem tryContainers_inv (priorityOf : String → Option Int) (item : Item)
    (sortedIds : List String) : ∀ (ids : List String) (st : RearrangeState),
    (∀ d ∈ st.containerMap, pairwiseDisjoint d) →
    ∀ d ∈ (tryContainers priorityOf item sortedIds ids st).containerMap, pairwiseDisjoint d := by
  intro ids
  induction ids with
  | nil => intro st h; exact h
  | cons cid rest ih =>
    intro st h
    simp only [tryContainers]
    split
    · exact ih st h
    · rename_i c hc
      split
      · exact mapSet_inv h (addItem_pairwise _ _ (h _ (getC_mem hc)))
      · exact ih _ (processOccupants_inv _ item cid sortedIds st h)

theorem rearrange_inv (priorityOf : String → Option Int) :
    ∀ (unplaced : List Item) (m : List Container),
    (∀ d ∈ m, pairwiseDisjoint d) →
    ∀ d ∈ (rearrangeForUnplacedItems priorityOf unplaced m).containerMap, pairwiseDisjoint d := by
  intro unplaced m hm
  unfold rearrangeForUnplacedItems
  exact foldl_preserves (fun st item hst => tryContainers_inv priorityOf item _ _ st hst)
    unplaced _ hm

theorem tryPlaceList_inv (item : Item) : ∀ (ids : List String) (m : List Container),
    (∀ d ∈ m, pairwiseDisjoint d) →
    ∀ m' p, tryPlaceList item ids m = some (m', p) → ∀ d ∈ m', pairwiseDisjoint d := by
  intro ids
  induction ids with
  | nil => intro m hm m' p h; exact absurd h (by simp [tryPlaceList])
  | cons cid rest ih =>
    intro m hm m' p h
    simp only [tryPlaceList] at h
    split at h
    · exact ih m hm m' p h
    · rename_i c hc
      split at h
      · injection h with h
        injection h with h1 h2
        subst h1
        exact mapSet_inv hm (addItem_pairwise _ _ (hm _ (getC_mem hc)))
      · exact ih m hm m' p h

theorem placeOneItem_inv (st : FirstPassState) (item : Item)
    (h : ∀ d ∈ st.containerMap, pairwiseDisjoint d) :
    ∀ d ∈ (placeOneItem st item).containerMap, pairwiseDisjoint d := by
  simp only [placeOneItem]
  split
  · rename_i m p hm
    exact tryPlaceList_inv item _ _ h m p hm
  · split
    · rename_i m p hm
      exact tryPlaceList_inv item _ _ h m p hm
    · exact h

theorem firstPass_inv (sortedItems : List Item) (m0 : List Container)
    (h : ∀ d ∈ m0, pairwiseDisjoint d) :
    ∀ d ∈ (firstPass sortedItems m0).containerMap, pairwiseDisjoint d := by
  unfold firstPass
  exact foldl_preserves (fun st item hst => placeOneItem_inv st item hst) sortedItems _ h

theorem emptied_pairwise (c : Container) : pairwiseDisjoint { c with items := [] } :=
  List.Pairwise.nil

theorem map0_inv (containers : List Container) :
    ∀ d ∈ containers.foldl (fun m c => mapSet m { c with items := [] }) [],
      pairwiseDisjoint d := by
  have h0 : ∀ d ∈ ([] : List Container), pairwiseDisjoint d := by
    intro d hd
    cases hd
  exact @foldl_preserves (List Container) Container
    (fun m => ∀ d ∈ m, pairwiseDisjoint d)
    (fun m c => mapSet m { c with items := [] })
    (fun m c hm => mapSet_inv hm (emptied_pairwise c)) containers [] h0

/-- Claim C7: the no-overlap invariant is preserved at every observable
point. addItem preserves pairwise disjointness because it inserts only when
canFitItem holds, which runs the separating-axis test against every
existing record; removeItem preserves it because erasing leaves a sublist;
hence any sequence of add and remove operations preserves it, every
container in the map after a rearrangeForUnplacedItems call satisfies it
whenever all containers did before, and every container in the working map
of a findOptimalPlacement call satisfies it unconditionally (the working
containers start with empty items arrays and are mutated only through
addItem and removeItem). -/
theorem no_overlap_invariant_preserved :
    (∀ (c : Container) (item : Item) (pos : Position),
      pairwiseDisjoint c → pairwiseDisjoint (c.addItem item pos).1) ∧
    (∀ (c : Container) (itemId : String),
      pairwiseDisjoint c → pairwiseDisjoint (c.removeItem itemId).1) ∧
    (∀ (ops : List ContainerOp) (c : Container),
      pairwiseDisjoint c → pairwiseDisjoint (applyOps ops c)) ∧
    (∀ (priorityOf : String → Option Int) (unplaced : List Item) (m : List Container),
      (∀ d ∈ m, pairwiseDisjoint d) →
      ∀ d ∈ (rearrangeForUnplacedItems priorityOf unplaced m).containerMap,
        pairwiseDisjoint d) ∧
    (∀ (priorityOf : String → Option Int) (items : List Item) (containers : List Container),
      ∀ d ∈ (findOptimalPlacement priorityOf items containers).containerMap,
        pairwiseDisjoint d) := by
  refine ⟨fun c item pos h => addItem_pairwise item pos h,
    fun c itemId h => removeItem_pairwise itemId h,
    applyOps_pairwise,
    fun priorityOf unplaced m hm => rearrange_inv priorityOf unplaced m hm,
    ?_⟩
  intro priorityOf items containers
  simp only [findOptimalPlacement]
  split
  · exact firstPass_inv _ _ (map0_inv containers)
  · exact rearrange_inv priorityOf _ _ (firstPass_inv _ _ (map0_inv containers))
